import Mathlib

/-!
Verification development for the frame-capture pipeline of `capture.js`
(thr-to-gif). The repository holds two revisions of the script: the original
one (an IIFE driving puppeteer, then shelling out to ffmpeg) and a revised
one (a `main` function with input validation, inter-attempt backoff, a
`cleanup` helper and a PNG preview step). The gap-filling logic
(`fillMissingFrames`, `createBlankFrame`) and the retry control flow
(`captureWithRetry`) are identical in both revisions up to the backoff wait,
which only the revised one performs.

The frames directory is modelled as a partial map from frame index to file
content; `fs.existsSync` is `Option.isSome`, `fs.copyFileSync` copies the
content value, `createBlankFrame` writes a distinguished blank content. The
functions below are written to mirror the JavaScript loop for loop.
-/

/-- Abstract content of a frame PNG file: either the pixels captured for
frame `i` by `page.screenshot` inside `captureFrame`, or the solid black
canvas written by `createBlankFrame`. -/
inductive Content where
  | orig (i : Nat)
  | blank
deriving DecidableEq, Repr

/-- The `./frames` directory: index `i` maps to the content of
`frames/frame_XXXX.png` for the zero-padded index `i`, or to `none` when
`fs.existsSync` is false for that path. The zero padding `String(i).padStart(4, "0")`
is injective on indices, so indices stand for paths directly. -/
def FrameFS : Type := Nat → Option Content

/-- The solid black 1000x1000 canvas that `createBlankFrame` renders and
writes with `fs.writeFileSync`. -/
def createBlankFrame : Content := Content.blank

/-- Writing a file: the directory after `fs.writeFileSync` /
`fs.copyFileSync` targeting index `i` with content `c`. -/
def fsWrite (fs : FrameFS) (i : Nat) (c : Content) : FrameFS :=
  fun k => if k = i then some c else fs k

/-- One filesystem effect of `fillMissingFrames`: `copied src dst` records a
`fs.copyFileSync(frame src, frame dst)` call, `blanked dst` records a
`createBlankFrame(frame dst)` call. -/
inductive FillAction where
  | copied (src dst : Nat)
  | blanked (dst : Nat)
deriving DecidableEq, Repr

/-- The backward scan of `fillMissingFrames`:
`let j = i - 1; while (j >= 0 && !fs.existsSync(frame j)) j--`, here started
at index `j` and searching downward. Returns the largest index `m` with
`m ≤ j` whose frame file exists, together with its content, or `none` when
every index in `0..j` is missing (the loop leaves `j` at `-1`). -/
def scanBack (fs : FrameFS) : Nat → Option (Nat × Content)
  | 0 =>
    match fs 0 with
    | some c => some (0, c)
    | none => none
  | j + 1 =>
    match fs (j + 1) with
    | some c => some (j + 1, c)
    | none => scanBack fs j

/-- The special case at the top of `fillMissingFrames`: if `frame_0000.png`
is missing, copy `frame_0001.png` over it when that exists, else create a
blank frame at index 0. Returns the updated directory and the actions
performed. -/
def fixFirstFrame (fs : FrameFS) : FrameFS × List FillAction :=
  match fs 0 with
  | some _ => (fs, [])
  | none =>
    match fs 1 with
    | some c => (fsWrite fs 0 c, [FillAction.copied 1 0])
    | none => (fsWrite fs 0 createBlankFrame, [FillAction.blanked 0])

/-- One iteration of the `for (let i = 0; i < totalFrames; i++)` loop of
`fillMissingFrames`, acting on the current directory and action log: if
frame `i` is missing, scan backward from `i - 1` for the nearest existing
frame and copy it, else (scan exhausted below 0) create a blank frame. -/
def fillStep (st : FrameFS × List FillAction) (i : Nat) : FrameFS × List FillAction :=
  match st.1 i with
  | some _ => st
  | none =>
    match i with
    | 0 => (fsWrite st.1 0 createBlankFrame, st.2 ++ [FillAction.blanked 0])
    | n + 1 =>
      match scanBack st.1 n with
      | some (j, c) => (fsWrite st.1 (n + 1) c, st.2 ++ [FillAction.copied j (n + 1)])
      | none => (fsWrite st.1 (n + 1) createBlankFrame, st.2 ++ [FillAction.blanked (n + 1)])

/-- The loop of `fillMissingFrames` run over indices `0, 1, ..., n - 1` in
ascending order, exactly as the JavaScript for loop does. -/
def fillLoop (st : FrameFS × List FillAction) : Nat → FrameFS × List FillAction
  | 0 => st
  | n + 1 => fillStep (fillLoop st n) n

/-- `fillMissingFrames` from `capture.js` (identical in both revisions):
first the frame-0 special case, then the ascending scan-and-patch loop over
`[0, totalFrames)`. The first component is the frames directory afterwards,
the second the list of copy / blank actions performed, in order. -/
def fillMissingFrames (fs : FrameFS) (totalFrames : Nat) : FrameFS × List FillAction :=
  fillLoop (fixFirstFrame fs) totalFrames

/-- Content that the loop leaves at index `i`, as a function of the
directory the loop started from: the content of the nearest existing frame
at or below `i`, else blank. -/
def loopContent (fs : FrameFS) (i : Nat) : Content :=
  match scanBack fs i with
  | some (_, c) => c
  | none => createBlankFrame

theorem fsWrite_same (fs : FrameFS) (i : Nat) (c : Content) : fsWrite fs i c i = some c := by
  simp [fsWrite]

theorem fsWrite_other (fs : FrameFS) (i k : Nat) (c : Content) (h : k ≠ i) :
    fsWrite fs i c k = fs k := by
  simp [fsWrite, h]

theorem scanBack_of_some (fs : FrameFS) (j : Nat) (c : Content) (h : fs j = some c) :
    scanBack fs j = some (j, c) := by
  cases j with
  | zero => simp [scanBack, h]
  | succ n => simp [scanBack, h]

theorem loopContent_of_some (fs : FrameFS) (j : Nat) (c : Content) (h : fs j = some c) :
    loopContent fs j = c := by
  simp [loopContent, scanBack_of_some fs j c h]

theorem loopContent_of_none (fs : FrameFS) (j : Nat) (h : fs (j + 1) = none) :
    loopContent fs (j + 1) = loopContent fs j := by
  simp [loopContent, scanBack, h]

/-- Closed form of the fill loop: indices below `n` are filled with the
nearest-existing content, indices at or above `n` are untouched. -/
theorem fillLoop_fs (st : FrameFS × List FillAction) (n : Nat) (i : Nat) :
    (fillLoop st n).1 i = if i < n then some (loopContent st.1 i) else st.1 i := by
  induction n generalizing i with
  | zero => simp [fillLoop]
  | succ n ih =>
    have hgn : (fillLoop st n).1 n = st.1 n := by simp [ih n]
    show (fillStep (fillLoop st n) n).1 i = _
    cases hc : st.1 n with
    | some c =>
      have hstep : fillStep (fillLoop st n) n = fillLoop st n := by
        unfold fillStep
        rw [hgn, hc]
      rw [hstep]
      rcases Nat.lt_trichotomy i n with hlt | heq | hgt
      · rw [ih i, if_pos hlt, if_pos (Nat.lt_succ_of_lt hlt)]
      · subst heq
        rw [ih i, if_neg (Nat.lt_irrefl i), if_pos (Nat.lt_succ_self i), hc,
          loopContent_of_some st.1 i c hc]
      · rw [ih i, if_neg (Nat.not_lt_of_lt hgt), if_neg (by omega)]
    | none =>
      cases n with
      | zero =>
        have hstep : fillStep (fillLoop st 0) 0 =
            (fsWrite st.1 0 createBlankFrame, st.2 ++ [FillAction.blanked 0]) := by
          unfold fillStep
          simp [fillLoop, hc]
        rw [hstep]
        show fsWrite st.1 0 createBlankFrame i = _
        cases i with
        | zero =>
          rw [fsWrite_same, if_pos Nat.zero_lt_one]
          simp [loopContent, scanBack, hc]
        | succ m =>
          rw [fsWrite_other st.1 0 (m + 1) createBlankFrame (Nat.succ_ne_zero m),
            if_neg (by omega)]
      | succ m =>
        have hgm : (fillLoop st (m + 1)).1 m = some (loopContent st.1 m) := by
          rw [ih m, if_pos (Nat.lt_succ_self m)]
        have hscan : scanBack (fillLoop st (m + 1)).1 m = some (m, loopContent st.1 m) :=
          scanBack_of_some _ m _ hgm
        have hstep : fillStep (fillLoop st (m + 1)) (m + 1) =
            (fsWrite (fillLoop st (m + 1)).1 (m + 1) (loopContent st.1 m),
             (fillLoop st (m + 1)).2 ++ [FillAction.copied m (m + 1)]) := by
          unfold fillStep
          rw [hgn, hc]
          simp only [hscan]
        rw [hstep]
        show fsWrite (fillLoop st (m + 1)).1 (m + 1) (loopContent st.1 m) i = _
        rcases Nat.lt_trichotomy i (m + 1) with hlt | heq | hgt
        · rw [fsWrite_other (fillLoop st (m + 1)).1 (m + 1) i (loopContent st.1 m) (by omega),
            ih i, if_pos hlt, if_pos (by omega)]
        · subst heq
          rw [fsWrite_same, if_pos (Nat.lt_succ_self (m + 1)), loopContent_of_none st.1 m hc]
        · rw [fsWrite_other (fillLoop st (m + 1)).1 (m + 1) i (loopContent st.1 m) (by omega),
            ih i, if_neg (by omega), if_neg (by omega)]

/-- Closed form of `fillMissingFrames` on the directory component. -/
theorem fillMissingFrames_fs (fs : FrameFS) (totalFrames i : Nat) :
    (fillMissingFrames fs totalFrames).1 i =
      if i < totalFrames then some (loopContent (fixFirstFrame fs).1 i)
      else (fixFirstFrame fs).1 i :=
  fillLoop_fs (fixFirstFrame fs) totalFrames i

/-- Characterisation of the backward scan: if the frame at `j` exists and
every frame strictly between `j` and `m` (inclusive) is missing, the scan
started at `m` stops exactly at `j`. -/
theorem scanBack_eq_of_nearest (fs : FrameFS) (j m : Nat) (c : Content)
    (hjm : j ≤ m) (hj : fs j = some c)
    (habove : ∀ l, j < l → l ≤ m → fs l = none) :
    scanBack fs m = some (j, c) := by
  revert hjm habove
  induction m with
  | zero =>
    intro hjm habove
    obtain rfl : j = 0 := Nat.le_zero.mp hjm
    exact scanBack_of_some fs 0 c hj
  | succ m ih =>
    intro hjm habove
    by_cases hje : j = m + 1
    · subst hje
      exact scanBack_of_some fs (m + 1) c hj
    · have hmnone : fs (m + 1) = none := habove (m + 1) (by omega) (Nat.le_refl (m + 1))
      have hred : scanBack fs (m + 1) = scanBack fs m := by simp [scanBack, hmnone]
      rw [hred]
      exact ih (by omega) (fun l hl hlm => habove l hl (by omega))

theorem fixFirstFrame_pos (fs : FrameFS) (i : Nat) (h : i ≠ 0) :
    (fixFirstFrame fs).1 i = fs i := by
  unfold fixFirstFrame
  cases h0 : fs 0 with
  | some c => rfl
  | none =>
    cases h1 : fs 1 with
    | some c => exact fsWrite_other fs 0 i c h
    | none => exact fsWrite_other fs 0 i createBlankFrame h

theorem fixFirstFrame_preserves (fs : FrameFS) (i : Nat) (c : Content) (h : fs i = some c) :
    (fixFirstFrame fs).1 i = some c := by
  cases i with
  | zero =>
    unfold fixFirstFrame
    rw [h]
    exact h
  | succ m => rw [fixFirstFrame_pos fs (m + 1) (Nat.succ_ne_zero m)]; exact h

/-- C1: for every total frame count and every initial set of existing frame
files, after `fillMissingFrames` returns, a frame file exists for every
index in `[0, totalFrames)`. -/
theorem fillMissingFrames_covers (fs : FrameFS) (totalFrames i : Nat) (h : i < totalFrames) :
    ((fillMissingFrames fs totalFrames).1 i).isSome := by
  rw [fillMissingFrames_fs, if_pos h]
  rfl

theorem fillMissingFrames_covers_witness :
    2 < 3 ∧ ((fillMissingFrames (fun _ => none) 3).1 2).isSome :=
  ⟨by decide, fillMissingFrames_covers (fun _ => none) 3 2 (by decide)⟩

/-- C9: `fillMissingFrames` never overwrites, modifies or deletes a frame
file that existed at entry (its guard `!fs.existsSync(framePath)` protects
every write), and it only creates files at indices that were missing. -/
theorem fillMissingFrames_no_overwrite (fs : FrameFS) (totalFrames : Nat) :
    (∀ i c, fs i = some c → (fillMissingFrames fs totalFrames).1 i = some c) ∧
    (∀ i, (fillMissingFrames fs totalFrames).1 i ≠ fs i → fs i = none) := by
  have hpres : ∀ i c, fs i = some c → (fillMissingFrames fs totalFrames).1 i = some c := by
    intro i c h
    have h1 : (fixFirstFrame fs).1 i = some c := fixFirstFrame_preserves fs i c h
    rw [fillMissingFrames_fs]
    by_cases hi : i < totalFrames
    · rw [if_pos hi, loopContent_of_some _ i c h1]
    · rw [if_neg hi]; exact h1
  refine ⟨hpres, fun i hne => ?_⟩
  cases h : fs i with
  | none => rfl
  | some c => exact absurd (hpres i c h) (h ▸ hne)

theorem fillMissingFrames_no_overwrite_witness :
    (fillMissingFrames (fun k => if k = 2 then some (Content.orig 2) else none) 4).1 2 =
      some (Content.orig 2) :=
  (fillMissingFrames_no_overwrite (fun k => if k = 2 then some (Content.orig 2) else none) 4).1
    2 (Content.orig 2) rfl

/-- C6: if the frame file at index 0 is missing and the one at index 1
exists, `fillMissingFrames` makes index 0 a copy of index 1 (the special
case at its top copies `frame_0001.png` over `frame_0000.png`). -/
theorem fillMissingFrames_first_from_second (fs : FrameFS) (totalFrames : Nat) (c : Content)
    (h0 : fs 0 = none) (h1 : fs 1 = some c) :
    (fillMissingFrames fs totalFrames).1 0 = some c := by
  have hfix : (fixFirstFrame fs).1 0 = some c := by
    unfold fixFirstFrame
    rw [h0, h1]
    exact fsWrite_same fs 0 c
  rw [fillMissingFrames_fs]
  by_cases h : 0 < totalFrames
  · rw [if_pos h, loopContent_of_some _ 0 c hfix]
  · rw [if_neg h]; exact hfix

theorem fillMissingFrames_first_from_second_witness :
    (fillMissingFrames (fun k => if k = 1 then some (Content.orig 1) else none) 5).1 0 =
      some (Content.orig 1) :=
  fillMissingFrames_first_from_second (fun k => if k = 1 then some (Content.orig 1) else none)
    5 (Content.orig 1) rfl rfl

/-- C5: a missing interior index `k` with a nearest earlier originally
existing frame `j` ends up with the content of `j`: the ascending loop
copies content forward, so the copy chain from `j` reaches `k` unchanged. -/
theorem fillMissingFrames_nearest_earlier (fs : FrameFS) (totalFrames k j : Nat) (c : Content)
    (hkN : k < totalFrames) (hk : fs k = none) (hjk : j < k) (hj : fs j = some c)
    (hnear : ∀ l, j < l → l < k → fs l = none) :
    (fillMissingFrames fs totalFrames).1 k = some c := by
  obtain ⟨m, rfl⟩ : ∃ m, k = m + 1 := ⟨k - 1, by omega⟩
  have hfix_j : (fixFirstFrame fs).1 j = some c := fixFirstFrame_preserves fs j c hj
  have hfix_above : ∀ l, j < l → l ≤ m → (fixFirstFrame fs).1 l = none := by
    intro l hl hlm
    rw [fixFirstFrame_pos fs l (by omega)]
    exact hnear l hl (by omega)
  have hscan : scanBack (fixFirstFrame fs).1 m = some (j, c) :=
    scanBack_eq_of_nearest (fixFirstFrame fs).1 j m c (by omega) hfix_j hfix_above
  have hfixk : (fixFirstFrame fs).1 (m + 1) = none := by
    rw [fixFirstFrame_pos fs (m + 1) (Nat.succ_ne_zero m)]
    exact hk
  rw [fillMissingFrames_fs, if_pos hkN]
  simp [loopContent, scanBack, hfixk, hscan]

theorem fillMissingFrames_nearest_earlier_witness :
    (fillMissingFrames (fun k => if k = 1 then some (Content.orig 1) else none) 5).1 3 =
      some (Content.orig 1) :=
  fillMissingFrames_nearest_earlier (fun k => if k = 1 then some (Content.orig 1) else none)
    5 3 1 (Content.orig 1) (by decide) rfl (by decide) rfl
    (fun l h1 h2 => by
      obtain rfl : l = 2 := by omega
      rfl)

/-- The action the fill loop performs at index `i`, as a function of the
directory the loop started from: nothing when the frame exists, a blank
frame at index 0, and otherwise a copy from the immediately preceding
index, which the loop has already filled. -/
def loopAction (fs : FrameFS) (i : Nat) : Option FillAction :=
  match fs i with
  | some _ => none
  | none =>
    match i with
    | 0 => some (FillAction.blanked 0)
    | n + 1 => some (FillAction.copied n (n + 1))

/-- Closed form of the actions logged by the fill loop. In particular every
copy the loop performs has source `i - 1`: since the loop runs in ascending
order, the backward scan always stops at the immediately preceding index. -/
theorem fillLoop_log (st : FrameFS × List FillAction) (n : Nat) :
    (fillLoop st n).2 = st.2 ++ (List.range n).filterMap (loopAction st.1) := by
  induction n with
  | zero => simp [fillLoop]
  | succ n ih =>
    show (fillStep (fillLoop st n) n).2 = _
    have hgn : (fillLoop st n).1 n = st.1 n := by simp [fillLoop_fs]
    rw [List.range_succ, List.filterMap_append]
    cases hc : st.1 n with
    | some c =>
      have hstep : fillStep (fillLoop st n) n = fillLoop st n := by
        unfold fillStep
        rw [hgn, hc]
      rw [hstep, ih]
      simp [loopAction, hc]
    | none =>
      cases n with
      | zero =>
        have hstep : fillStep (fillLoop st 0) 0 =
            (fsWrite st.1 0 createBlankFrame, st.2 ++ [FillAction.blanked 0]) := by
          unfold fillStep
          simp [fillLoop, hc]
        rw [hstep]
        show st.2 ++ [FillAction.blanked 0] = _
        simp [fillLoop, loopAction, hc]
      | succ m =>
        have hgm : (fillLoop st (m + 1)).1 m = some (loopContent st.1 m) := by
          rw [fillLoop_fs, if_pos (Nat.lt_succ_self m)]
        have hscan : scanBack (fillLoop st (m + 1)).1 m = some (m, loopContent st.1 m) :=
          scanBack_of_some _ m _ hgm
        have hstep : fillStep (fillLoop st (m + 1)) (m + 1) =
            (fsWrite (fillLoop st (m + 1)).1 (m + 1) (loopContent st.1 m),
             (fillLoop st (m + 1)).2 ++ [FillAction.copied m (m + 1)]) := by
          unfold fillStep
          rw [hgn, hc]
          simp only [hscan]
        rw [hstep]
        show (fillLoop st (m + 1)).2 ++ [FillAction.copied m (m + 1)] = _
        rw [ih]
        simp [loopAction, hc]

/-- C7 counterexample: start from a directory with every frame missing and
`totalFrames = 2`. The filler synthesizes a blank only at index 0; frame 1
is then created by `fs.copyFileSync` from frame 0 (the backward scan finds
the just-created blank), so an index does hold a copied frame. -/
theorem fillMissingFrames_all_missing_has_copy :
    (∀ i : Nat, (fun _ => none : FrameFS) i = none) ∧
    (fillMissingFrames (fun _ => none) 2).2 =
      [FillAction.blanked 0, FillAction.copied 0 1] :=
  ⟨fun _ => rfl, rfl⟩

/-- C7 amended: with every frame missing, after `fillMissingFrames` every
index in `[0, totalFrames)` holds the solid black blank content, but only
index 0 is synthesized by `createBlankFrame`; every other filled index is
produced by copying the (already blank) immediately preceding frame, so no
index holds captured content. -/
theorem fillMissingFrames_all_missing_spec (fs : FrameFS) (totalFrames : Nat)
    (h : ∀ i, fs i = none) :
    (∀ i, i < totalFrames → (fillMissingFrames fs totalFrames).1 i = some createBlankFrame) ∧
    (fillMissingFrames fs totalFrames).2 =
      FillAction.blanked 0 ::
        (List.range totalFrames).filterMap
          (fun i => match i with
            | 0 => none
            | n + 1 => some (FillAction.copied n (n + 1))) := by
  have hfix : fixFirstFrame fs = (fsWrite fs 0 createBlankFrame, [FillAction.blanked 0]) := by
    unfold fixFirstFrame
    rw [h 0, h 1]
  have hfs1_zero : fsWrite fs 0 createBlankFrame 0 = some createBlankFrame :=
    fsWrite_same fs 0 createBlankFrame
  have hfs1_pos : ∀ l, 0 < l → fsWrite fs 0 createBlankFrame l = none := by
    intro l hl
    rw [fsWrite_other fs 0 l createBlankFrame (by omega)]
    exact h l
  constructor
  · intro i hi
    have hscan : scanBack (fsWrite fs 0 createBlankFrame) i = some (0, createBlankFrame) :=
      scanBack_eq_of_nearest (fsWrite fs 0 createBlankFrame) 0 i createBlankFrame
        (Nat.zero_le i) hfs1_zero (fun l hl _ => hfs1_pos l hl)
    rw [fillMissingFrames_fs, if_pos hi, hfix]
    show some (loopContent (fsWrite fs 0 createBlankFrame) i) = _
    simp [loopContent, hscan]
  · show (fillLoop (fixFirstFrame fs) totalFrames).2 = _
    rw [fillLoop_log, hfix]
    show [FillAction.blanked 0] ++ _ = _
    simp only [List.singleton_append, List.cons.injEq, true_and]
    apply List.filterMap_congr
    intro i hi
    cases i with
    | zero => simp [loopAction, hfs1_zero]
    | succ n => simp [loopAction, hfs1_pos (n + 1) (Nat.succ_pos n)]

theorem fillMissingFrames_all_missing_spec_witness :
    (fillMissingFrames (fun _ => none) 3).1 1 = some createBlankFrame ∧
    (fillMissingFrames (fun _ => none) 3).2 =
      FillAction.blanked 0 ::
        (List.range 3).filterMap
          (fun i => match i with
            | 0 => none
            | n + 1 => some (FillAction.copied n (n + 1))) :=
  ⟨(fillMissingFrames_all_missing_spec (fun _ => none) 3 (fun _ => rfl)).1 1 (by decide),
   (fillMissingFrames_all_missing_spec (fun _ => none) 3 (fun _ => rfl)).2⟩

/-- MAX_RETRIES from the revised script; the original passes the same
default `retries = 3` explicitly. -/
def MAX_RETRIES : Nat := 3

/-- The wait inserted by the revised `captureWithRetry` after a failed
attempt with retries remaining:
`setTimeout(resolve, 1000 * (attempt + 1))`, in milliseconds. -/
def backoffDelay (attempt : Nat) : Nat := 1000 * (attempt + 1)

/-- Observable outcome of one `captureWithRetry` call: whether it returned
true, how many capture attempts it made, and the list of inter-attempt
waits (in ms) it performed, in order. -/
structure RetryRun where
  success : Bool
  attempts : Nat
  waits : List Nat
deriving DecidableEq, Repr

/-- The `for (let attempt = 0; attempt <= retries; attempt++)` loop of the
revised `captureWithRetry`, entered at attempt number `attempt` with `fuel`
= `retries - attempt` further attempts allowed. `outcome a` abstracts
whether attempt `a` of `captureFrame` wins its race against the 20 s
timeout; on failure with `attempt === retries` the loop returns false, and
otherwise waits `backoffDelay attempt` before the next attempt. Exceptions
are caught inside the loop, so the function always returns a boolean. -/
def retryFrom (outcome : Nat → Bool) (attempt : Nat) : Nat → RetryRun
  | 0 =>
    if outcome attempt then ⟨true, 1, []⟩ else ⟨false, 1, []⟩
  | fuel + 1 =>
    if outcome attempt then ⟨true, 1, []⟩
    else
      let r := retryFrom outcome (attempt + 1) fuel
      ⟨r.success, r.attempts + 1, backoffDelay attempt :: r.waits⟩

/-- `captureWithRetry` of the revised script: the retry loop started at
attempt 0 with `retries` further attempts allowed. -/
def captureWithRetry (outcome : Nat → Bool) (retries : Nat) : RetryRun :=
  retryFrom outcome 0 retries

/-- The same loop in the original script, which performs no wait between
attempts (its failure branch only logs a warning). -/
def retryFromV1 (outcome : Nat → Bool) (attempt : Nat) : Nat → RetryRun
  | 0 =>
    if outcome attempt then ⟨true, 1, []⟩ else ⟨false, 1, []⟩
  | fuel + 1 =>
    if outcome attempt then ⟨true, 1, []⟩
    else
      let r := retryFromV1 outcome (attempt + 1) fuel
      ⟨r.success, r.attempts + 1, r.waits⟩

/-- `captureWithRetry` of the original script. -/
def captureWithRetryV1 (outcome : Nat → Bool) (retries : Nat) : RetryRun :=
  retryFromV1 outcome 0 retries


theorem retryFrom_zero (outcome : Nat → Bool) (attempt : Nat) :
    retryFrom outcome attempt 0 = ⟨outcome attempt, 1, []⟩ := by
  cases h : outcome attempt <;> simp [retryFrom, h]

theorem retryFrom_succ_true (outcome : Nat → Bool) (attempt fuel : Nat)
    (h : outcome attempt = true) :
    retryFrom outcome attempt (fuel + 1) = ⟨true, 1, []⟩ := by
  simp [retryFrom, h]

theorem retryFrom_succ_false (outcome : Nat → Bool) (attempt fuel : Nat)
    (h : outcome attempt = false) :
    retryFrom outcome attempt (fuel + 1) =
      ⟨(retryFrom outcome (attempt + 1) fuel).success,
       (retryFrom outcome (attempt + 1) fuel).attempts + 1,
       backoffDelay attempt :: (retryFrom outcome (attempt + 1) fuel).waits⟩ := by
  simp [retryFrom, h]

theorem retryFrom_attempts_le (outcome : Nat → Bool) (attempt fuel : Nat) :
    (retryFrom outcome attempt fuel).attempts ≤ fuel + 1 := by
  induction fuel generalizing attempt with
  | zero =>
    rw [retryFrom_zero]
  | succ fuel ih =>
    cases h : outcome attempt
    · rw [retryFrom_succ_false outcome attempt fuel h]
      exact Nat.succ_le_succ (ih (attempt + 1))
    · rw [retryFrom_succ_true outcome attempt fuel h]
      show 1 ≤ fuel + 1 + 1
      omega

theorem retryFrom_success_iff (outcome : Nat → Bool) (attempt fuel : Nat) :
    (retryFrom outcome attempt fuel).success = true ↔
      ∃ d, d ≤ fuel ∧ outcome (attempt + d) = true := by
  induction fuel generalizing attempt with
  | zero =>
    rw [retryFrom_zero]
    show outcome attempt = true ↔ _
    constructor
    · intro h
      exact ⟨0, Nat.le_refl 0, by simpa using h⟩
    · rintro ⟨d, hd, hout⟩
      obtain rfl : d = 0 := Nat.le_zero.mp hd
      simpa using hout
  | succ fuel ih =>
    cases h : outcome attempt
    · rw [retryFrom_succ_false outcome attempt fuel h]
      show (retryFrom outcome (attempt + 1) fuel).success = true ↔ _
      rw [ih (attempt + 1)]
      constructor
      · rintro ⟨d, hd, hout⟩
        refine ⟨d + 1, by omega, ?_⟩
        rw [show attempt + (d + 1) = attempt + 1 + d by omega]
        exact hout
      · rintro ⟨d, hd, hout⟩
        cases d with
        | zero =>
          rw [Nat.add_zero, h] at hout
          exact absurd hout (by simp)
        | succ e =>
          refine ⟨e, by omega, ?_⟩
          rw [show attempt + 1 + e = attempt + (e + 1) by omega]
          exact hout
    · rw [retryFrom_succ_true outcome attempt fuel h]
      exact ⟨fun _ => ⟨0, Nat.zero_le _, by simpa using h⟩, fun _ => rfl⟩

theorem retryFrom_fail_attempts (outcome : Nat → Bool) (attempt fuel : Nat)
    (h : (retryFrom outcome attempt fuel).success = false) :
    (retryFrom outcome attempt fuel).attempts = fuel + 1 := by
  induction fuel generalizing attempt with
  | zero =>
    rw [retryFrom_zero]
  | succ fuel ih =>
    cases ho : outcome attempt
    · rw [retryFrom_succ_false outcome attempt fuel ho] at h
      have h' : (retryFrom outcome (attempt + 1) fuel).success = false := h
      rw [retryFrom_succ_false outcome attempt fuel ho]
      show (retryFrom outcome (attempt + 1) fuel).attempts + 1 = fuel + 1 + 1
      rw [ih (attempt + 1) h']
    · rw [retryFrom_succ_true outcome attempt fuel ho] at h
      exact absurd h (by simp)

theorem retryFrom_first_success (outcome : Nat → Bool) (attempt fuel d : Nat)
    (hd : d ≤ fuel) (hsucc : outcome (attempt + d) = true)
    (hbefore : ∀ e, e < d → outcome (attempt + e) = false) :
    (retryFrom outcome attempt fuel).success = true ∧
    (retryFrom outcome attempt fuel).attempts = d + 1 := by
  induction fuel generalizing attempt d with
  | zero =>
    obtain rfl : d = 0 := Nat.le_zero.mp hd
    have h0 : outcome attempt = true := by simpa using hsucc
    rw [retryFrom_zero, h0]
    exact ⟨rfl, rfl⟩
  | succ fuel ih =>
    cases d with
    | zero =>
      have h0 : outcome attempt = true := by simpa using hsucc
      rw [retryFrom_succ_true outcome attempt fuel h0]
      exact ⟨rfl, rfl⟩
    | succ e =>
      have h0 : outcome attempt = false := by simpa using hbefore 0 (Nat.succ_pos e)
      have hrec := ih (attempt + 1) e (by omega)
        (by rw [show attempt + 1 + e = attempt + (e + 1) by omega]; exact hsucc)
        (fun f hf => by
          rw [show attempt + 1 + f = attempt + (f + 1) by omega]
          exact hbefore (f + 1) (by omega))
      rw [retryFrom_succ_false outcome attempt fuel h0]
      refine ⟨hrec.1, ?_⟩
      show (retryFrom outcome (attempt + 1) fuel).attempts + 1 = e + 1 + 1
      rw [hrec.2]

theorem retryFrom_waits_getD (outcome : Nat → Bool) (attempt fuel i : Nat)
    (h : i < (retryFrom outcome attempt fuel).waits.length) :
    (retryFrom outcome attempt fuel).waits.getD i 0 = backoffDelay (attempt + i) := by
  induction fuel generalizing attempt i with
  | zero =>
    rw [retryFrom_zero] at h
    exact absurd h (by simp)
  | succ fuel ih =>
    cases ho : outcome attempt
    · rw [retryFrom_succ_false outcome attempt fuel ho] at h ⊢
      cases i with
      | zero => simp
      | succ n =>
        have hn : n < (retryFrom outcome (attempt + 1) fuel).waits.length := by
          simpa using h
        show (backoffDelay attempt :: (retryFrom outcome (attempt + 1) fuel).waits).getD (n + 1) 0 = _
        rw [List.getD_cons_succ, ih (attempt + 1) n hn,
          show attempt + 1 + n = attempt + (n + 1) by omega]
    · rw [retryFrom_succ_true outcome attempt fuel ho] at h
      exact absurd h (by simp)

theorem retryFromV1_agrees (outcome : Nat → Bool) (attempt fuel : Nat) :
    (retryFromV1 outcome attempt fuel).success = (retryFrom outcome attempt fuel).success ∧
    (retryFromV1 outcome attempt fuel).attempts = (retryFrom outcome attempt fuel).attempts ∧
    (retryFromV1 outcome attempt fuel).waits = [] := by
  induction fuel generalizing attempt with
  | zero => cases h : outcome attempt <;> simp [retryFromV1, retryFrom, h]
  | succ fuel ih =>
    cases h : outcome attempt
    · rw [retryFrom_succ_false outcome attempt fuel h]
      have hv1 : retryFromV1 outcome attempt (fuel + 1) =
          ⟨(retryFromV1 outcome (attempt + 1) fuel).success,
           (retryFromV1 outcome (attempt + 1) fuel).attempts + 1,
           (retryFromV1 outcome (attempt + 1) fuel).waits⟩ := by
        simp [retryFromV1, h]
      rw [hv1]
      exact ⟨(ih (attempt + 1)).1,
        congrArg (· + 1) (ih (attempt + 1)).2.1,
        (ih (attempt + 1)).2.2⟩
    · have hv1 : retryFromV1 outcome attempt (fuel + 1) = ⟨true, 1, []⟩ := by
        simp [retryFromV1, h]
      rw [hv1, retryFrom_succ_true outcome attempt fuel h]
      exact ⟨rfl, rfl, rfl⟩

/-- C10: `captureWithRetry` catches every capture error inside its loop and
always returns a boolean (the model is a total function into `RetryRun`).
For every sequence of attempt outcomes it makes at most `retries + 1`
attempts (4 with the default `retries = MAX_RETRIES = 3`), returns true as
soon as an attempt succeeds (with `attempts` counting exactly through the
first success), and returns false exactly when all `retries + 1` attempts
fail, in which case every attempt was made. The original revision's loop
behaves identically apart from the waits. -/
theorem captureWithRetry_spec (outcome : Nat → Bool) (retries : Nat) :
    (captureWithRetry outcome retries).attempts ≤ retries + 1 ∧
    ((captureWithRetry outcome retries).success = true ↔
      ∃ a, a ≤ retries ∧ outcome a = true) ∧
    ((captureWithRetry outcome retries).success = false →
      (captureWithRetry outcome retries).attempts = retries + 1) ∧
    (∀ a, a ≤ retries → outcome a = true → (∀ b, b < a → outcome b = false) →
      (captureWithRetry outcome retries).success = true ∧
      (captureWithRetry outcome retries).attempts = a + 1) ∧
    (captureWithRetryV1 outcome retries).success = (captureWithRetry outcome retries).success ∧
    (captureWithRetryV1 outcome retries).attempts = (captureWithRetry outcome retries).attempts ∧
    MAX_RETRIES + 1 = 4 := by
  refine ⟨retryFrom_attempts_le outcome 0 retries, ?_, ?_, ?_, ?_, ?_, rfl⟩
  · rw [show captureWithRetry outcome retries = retryFrom outcome 0 retries from rfl,
      retryFrom_success_iff outcome 0 retries]
    simp
  · exact retryFrom_fail_attempts outcome 0 retries
  · intro a ha hout hbefore
    exact retryFrom_first_success outcome 0 retries a ha (by simpa using hout)
      (fun e he => by simpa using hbefore e he)
  · exact (retryFromV1_agrees outcome 0 retries).1
  · exact (retryFromV1_agrees outcome 0 retries).2.1

theorem captureWithRetry_spec_witness :
    (captureWithRetry (fun a => a == 2) MAX_RETRIES).success = true ∧
    (captureWithRetry (fun a => a == 2) MAX_RETRIES).attempts = 3 :=
  (captureWithRetry_spec (fun a => a == 2) MAX_RETRIES).2.2.2.1 2 (by decide) (by decide)
    (fun b hb => by interval_cases b <;> rfl)

/-- C4 counterexample: in the original revision of `captureWithRetry` there
is no wait between attempts at all. With every attempt failing and the
default `retries = MAX_RETRIES`, four attempts are made yet the list of
waits performed between them is empty, so no linearly growing wait precedes
any retry. -/
theorem captureWithRetryV1_no_backoff :
    (captureWithRetryV1 (fun _ => false) MAX_RETRIES).attempts = 4 ∧
    (captureWithRetryV1 (fun _ => false) MAX_RETRIES).waits = [] :=
  ⟨rfl, rfl⟩

/-- C4 amended: in the revised `captureWithRetry` the wait performed after
the i-th failed attempt (0-based, retries remaining) is `1000 * (i + 1)`
milliseconds, for every failing attempt sequence — a linearly growing
backoff. The original revision's `captureWithRetry` performs no wait
between attempts. -/
theorem captureWithRetry_backoff_linear (outcome : Nat → Bool) (retries i : Nat)
    (h : i < (captureWithRetry outcome retries).waits.length) :
    (captureWithRetry outcome retries).waits.getD i 0 = 1000 * (i + 1) := by
  have := retryFrom_waits_getD outcome 0 retries i h
  rw [show captureWithRetry outcome retries = retryFrom outcome 0 retries from rfl, this]
  simp [backoffDelay]

theorem captureWithRetry_backoff_linear_witness :
    1 < (captureWithRetry (fun _ => false) MAX_RETRIES).waits.length ∧
    (captureWithRetry (fun _ => false) MAX_RETRIES).waits.getD 1 0 = 2000 :=
  ⟨by decide, captureWithRetry_backoff_linear (fun _ => false) MAX_RETRIES 1 (by decide)⟩

/-- Observable result of one run of the script's `main` path, from the
start of the capture loop onward. `completed` is the final value of the
progress counter; `paletteRuns` and `gifRuns` count how many times each
ffmpeg command line was executed; `cleanupRan` records whether the
temporary frames directory and `palette.png` were removed before the
process exited; `exitCode` is the process exit status. -/
structure PipelineResult where
  completed : Nat
  framesCaptured : FrameFS
  reachedGapFill : Bool
  framesFinal : FrameFS
  paletteRuns : Nat
  gifRuns : Nat
  previewCaptured : Bool
  cleanupRan : Bool
  exitCode : Nat

/-- The `for (let i = 0; i < totalFrames; i++)` capture loop of `main`:
each iteration awaits `captureWithRetry(page, i)` — whose boolean result is
ignored — and increments `completed`. `outcome i a` abstracts whether
attempt `a` for frame `i` succeeds; a successful frame writes its
screenshot at index `i`, a failed one leaves the index missing. -/
def captureLoop (outcome : Nat → Nat → Bool) (fs : FrameFS) : Nat → FrameFS × Nat
  | 0 => (fs, 0)
  | n + 1 =>
    let st := captureLoop outcome fs n
    if (captureWithRetry (outcome n) MAX_RETRIES).success
    then (fsWrite st.1 n (Content.orig n), st.2 + 1)
    else (st.1, st.2 + 1)

/-- The `main` control flow of the revised script from the capture loop to
process exit, with the two ffmpeg invocations abstracted by their success
flags. After the loop, `fillMissingFrames` runs unconditionally; the
palette command runs once and on error its rejection reaches the catch
block, which calls `process.exit(1)` — in Node this terminates the process
immediately, so the `finally` block (and hence `cleanup`) never runs on
that path; the GIF command behaves the same; on success the GIF callback
runs `cleanup` (also reached again, idempotently, via `finally`) and then
captures the PNG preview, and the process exits with status 0. The
original script is observably the same here except that it has no preview
step and no cleanup code on its error paths at all (its exec callbacks
call `process.exit(1)` directly). -/
def runMain (outcome : Nat → Nat → Bool) (paletteOk gifOk : Bool) (totalFrames : Nat)
    (fs0 : FrameFS) : PipelineResult :=
  let st := captureLoop outcome fs0 totalFrames
  let filled := (fillMissingFrames st.1 totalFrames).1
  if paletteOk then
    if gifOk then
      { completed := st.2, framesCaptured := st.1, reachedGapFill := true,
        framesFinal := filled, paletteRuns := 1, gifRuns := 1,
        previewCaptured := true, cleanupRan := true, exitCode := 0 }
    else
      { completed := st.2, framesCaptured := st.1, reachedGapFill := true,
        framesFinal := filled, paletteRuns := 1, gifRuns := 1,
        previewCaptured := false, cleanupRan := false, exitCode := 1 }
  else
    { completed := st.2, framesCaptured := st.1, reachedGapFill := true,
      framesFinal := filled, paletteRuns := 1, gifRuns := 0,
      previewCaptured := false, cleanupRan := false, exitCode := 1 }

theorem captureLoop_completed (outcome : Nat → Nat → Bool) (fs : FrameFS) (n : Nat) :
    (captureLoop outcome fs n).2 = n := by
  induction n with
  | zero => rfl
  | succ n ih =>
    show (if (captureWithRetry (outcome n) MAX_RETRIES).success
      then (fsWrite (captureLoop outcome fs n).1 n (Content.orig n),
        (captureLoop outcome fs n).2 + 1)
      else ((captureLoop outcome fs n).1, (captureLoop outcome fs n).2 + 1)).2 = n + 1
    cases (captureWithRetry (outcome n) MAX_RETRIES).success <;> simp [ih]

/-- C2: even when every capture attempt for some frame fails
(`captureWithRetry` returns false for it), the capture loop still runs all
`totalFrames` iterations, the pipeline reaches gap-filling, the encoder is
invoked, and after gap-filling every index in `[0, totalFrames)` has a
frame file: an isolated frame failure never terminates the run. -/
theorem frame_failure_not_fatal (outcome : Nat → Nat → Bool) (paletteOk gifOk : Bool)
    (totalFrames i : Nat) (fs0 : FrameFS) (hi : i < totalFrames)
    (hfail : (captureWithRetry (outcome i) MAX_RETRIES).success = false) :
    (runMain outcome paletteOk gifOk totalFrames fs0).completed = totalFrames ∧
    (runMain outcome paletteOk gifOk totalFrames fs0).reachedGapFill = true ∧
    (runMain outcome paletteOk gifOk totalFrames fs0).paletteRuns = 1 ∧
    ∀ k, k < totalFrames →
      (((runMain outcome paletteOk gifOk totalFrames fs0).framesFinal) k).isSome := by
  have hc := captureLoop_completed outcome fs0 totalFrames
  have hfill : ∀ k, k < totalFrames →
      (((fillMissingFrames (captureLoop outcome fs0 totalFrames).1 totalFrames).1) k).isSome :=
    fun k hk => fillMissingFrames_covers (captureLoop outcome fs0 totalFrames).1 totalFrames k hk
  cases hp : paletteOk <;> cases hg : gifOk <;>
    exact ⟨hc, rfl, rfl, hfill⟩

theorem frame_failure_not_fatal_witness :
    (runMain (fun _ _ => false) true true 2 (fun _ => none)).completed = 2 ∧
    (runMain (fun _ _ => false) true true 2 (fun _ => none)).reachedGapFill = true :=
  ⟨(frame_failure_not_fatal (fun _ _ => false) true true 2 0 (fun _ => none)
      (by decide) rfl).1,
   (frame_failure_not_fatal (fun _ _ => false) true true 2 0 (fun _ => none)
      (by decide) rfl).2.1⟩

/-- C8: if either ffmpeg invocation (palette generation or GIF assembly)
reports an error, the process exits with status 1; each command is executed
at most once, so neither failure is retried, and a palette failure prevents
the GIF command from running at all. -/
theorem encoder_failure_fatal (outcome : Nat → Nat → Bool) (paletteOk gifOk : Bool)
    (totalFrames : Nat) (fs0 : FrameFS) (h : paletteOk = false ∨ gifOk = false) :
    (runMain outcome paletteOk gifOk totalFrames fs0).exitCode = 1 ∧
    (runMain outcome paletteOk gifOk totalFrames fs0).paletteRuns ≤ 1 ∧
    (runMain outcome paletteOk gifOk totalFrames fs0).gifRuns ≤ 1 ∧
    (paletteOk = false → (runMain outcome paletteOk gifOk totalFrames fs0).gifRuns = 0) := by
  cases hp : paletteOk <;> cases hg : gifOk
  · exact ⟨rfl, Nat.le_refl 1, Nat.zero_le 1, fun _ => rfl⟩
  · exact ⟨rfl, Nat.le_refl 1, Nat.zero_le 1, fun _ => rfl⟩
  · exact ⟨rfl, Nat.le_refl 1, Nat.le_refl 1, fun hcon => absurd hcon (by simp)⟩
  · subst hp hg
    rcases h with h | h <;> exact absurd h (by simp)

theorem encoder_failure_fatal_witness :
    (runMain (fun _ _ => true) false true 1 (fun _ => none)).exitCode = 1 :=
  (encoder_failure_fatal (fun _ _ => true) false true 1 (fun _ => none) (Or.inl rfl)).1

/-- C3 does not hold: temporary files are not removed on every exit path.
On the successful path cleanup runs (in the GIF callback and again,
idempotently, in the `finally` block), but when palette generation or GIF
assembly fails, the catch block calls `process.exit(1)`, which in Node
terminates the process immediately — before the `finally` block can run
`cleanup` — so the frames directory and `palette.png` remain on disk while
the process exits with status 1. The original revision has no error-path
cleanup code at all: its exec callbacks call `process.exit(1)` directly. -/
theorem cleanup_skipped_on_encoder_failure (outcome : Nat → Nat → Bool) (totalFrames : Nat)
    (fs0 : FrameFS) :
    (runMain outcome true true totalFrames fs0).cleanupRan = true ∧
    (runMain outcome false true totalFrames fs0).cleanupRan = false ∧
    (runMain outcome false true totalFrames fs0).exitCode = 1 ∧
    (runMain outcome true false totalFrames fs0).cleanupRan = false ∧
    (runMain outcome true false totalFrames fs0).exitCode = 1 :=
  ⟨rfl, rfl, rfl, rfl, rfl⟩
